import Mathlib

/-!
Shallow embedding of `sanskrit/schema.py` (SQLAlchemy declarative schema for
Sanskrit grammatical data): enumerations, the polymorphic Prefix / Root /
Stem / Form hierarchies, ordered associations managed by
`ordering_list('position')`, association proxies, and the paradigm and
prefix/modification association tables. Machine integers are `Nat`; nullable
columns are `Option`; relationship accessors are resolution functions over
explicit table contents.
-/

namespace Sanskrit

/-- Part-of-speech tag (`class Tag(SimpleBase)`): primary key and name. -/
structure Tag where
  id : Nat
  name : String
  deriving DecidableEq, Repr

namespace Tag

/-- Constant `Tag.VERB = 1`. -/
def VERB : Nat := 1

/-- Constant `Tag.NOUN = 2`. -/
def NOUN : Nat := 2

/-- Constant `Tag.PRONOUN = 3`. -/
def PRONOUN : Nat := 3

/-- Constant `Tag.ADJECTIVE = 4`. -/
def ADJECTIVE : Nat := 4

/-- Constant `Tag.PARTICIPLE = 5`. -/
def PARTICIPLE : Nat := 5

/-- Constant `Tag.INDECLINABLE = 6`. -/
def INDECLINABLE : Nat := 6

/-- Constant `Tag.VERBAL_INDECLINABLE = 7`. -/
def VERBAL_INDECLINABLE : Nat := 7

/-- Constant `Tag.GERUND = 8`. -/
def GERUND : Nat := 8

/-- Constant `Tag.INFINITIVE = 9`. -/
def INFINITIVE : Nat := 9

/-- Constant `Tag.PERFECT_INDECLINABLE = 10`. -/
def PERFECT_INDECLINABLE : Nat := 10

/-- Constant `Tag.NOUN_PREFIX = 11`. -/
def NOUN_PREFIX : Nat := 11

/-- Constant `Tag.VERB_PREFIX = 12`. -/
def VERB_PREFIX : Nat := 12

end Tag

/-- Enumeration `Person` (an `EnumBase`: id, name, abbreviation). -/
structure Person where
  id : Nat
  name : String
  abbr : String
  deriving DecidableEq, Repr

/-- Enumeration `Number` (an `EnumBase`). -/
structure Number where
  id : Nat
  name : String
  abbr : String
  deriving DecidableEq, Repr

/-- Enumeration `Mode` (an `EnumBase`). -/
structure Mode where
  id : Nat
  name : String
  abbr : String
  deriving DecidableEq, Repr

/-- Enumeration `Voice` (an `EnumBase`). -/
structure Voice where
  id : Nat
  name : String
  abbr : String
  deriving DecidableEq, Repr

/-- Enumeration `Gender` (an `EnumBase`): regular genders and composite
genders for stems. -/
structure Gender where
  id : Nat
  name : String
  abbr : String
  deriving DecidableEq, Repr

/-- Enumeration `VClass` (an `EnumBase`): the verb class. -/
structure VClass where
  id : Nat
  name : String
  abbr : String
  deriving DecidableEq, Repr

/-- Enumeration `Modification` (an `EnumBase`): causative, desiderative,
intensive. -/
structure Modification where
  id : Nat
  name : String
  abbr : String
  deriving DecidableEq, Repr

/-!
Ordered association machinery. `ordering_list('position')` manages a plain
Python list of association rows and writes each row's `position` attribute:
`append` stamps the new row with the tail index, and `insert`/`remove` (and
`pop`) renumber the whole collection from index 0. The machinery is generic
over the row type; `HasPosition` captures the managed `position` attribute.
-/

/-- A row type with a `position` column managed by `ordering_list`. -/
class HasPosition (α : Type) where
  position : α → Nat
  setPosition : α → Nat → α
  position_set : ∀ a i, position (setPosition a i) = i

/-- Renumber a tail of the collection with consecutive positions from `i`
(`count_from_0` ordering function). -/
def reorderFrom {α : Type} [HasPosition α] (i : Nat) : List α → List α
  | [] => []
  | a :: rest => HasPosition.setPosition a i :: reorderFrom (i + 1) rest

/-- Renumber the whole collection, as `OrderingList._reorder` does. -/
def reorder {α : Type} [HasPosition α] (xs : List α) : List α :=
  reorderFrom 0 xs

/-- `OrderingList.append`: plain list append, then the new row's position is
set to its index. -/
def olAppend {α : Type} [HasPosition α] (xs : List α) (a : α) : List α :=
  xs ++ [HasPosition.setPosition a xs.length]

/-- `OrderingList.insert`: plain list insert (a too-large index appends at
the end, as in Python), then a full renumbering. -/
def olInsertAt {α : Type} [HasPosition α] (xs : List α) (i : Nat) (a : α) : List α :=
  reorder (xs.take i ++ a :: xs.drop i)

/-- `OrderingList.pop` at an index: plain list removal, then a full
renumbering. -/
def olRemoveAt {α : Type} [HasPosition α] (xs : List α) (i : Nat) : List α :=
  reorder (xs.take i ++ xs.drop (i + 1))

/-- A structural mutation of an ordered association collection. -/
inductive OrderOp (α : Type) where
  | append (a : α)
  | insertAt (i : Nat) (a : α)
  | removeAt (i : Nat)
  deriving DecidableEq, Repr

/-- Apply one mutation. -/
def applyOp {α : Type} [HasPosition α] (xs : List α) : OrderOp α → List α
  | .append a => olAppend xs a
  | .insertAt i a => olInsertAt xs i a
  | .removeAt i => olRemoveAt xs i

/-- Apply a sequence of mutations, first to last. -/
def applyOps {α : Type} [HasPosition α] (xs : List α) (ops : List (OrderOp α)) : List α :=
  ops.foldl applyOp xs

/-- The `position` column of every row, in collection order. -/
def positionsOf {α : Type} [HasPosition α] (xs : List α) : List Nat :=
  xs.map HasPosition.position

/-- `RootPrefixAssociation`: associates a prefixed root with one verb prefix
at an explicit `position`. -/
structure RootPrefixAssociation where
  root_id : Option Nat
  prefix_id : Nat
  position : Nat
  deriving DecidableEq, Repr

instance : HasPosition RootPrefixAssociation where
  position a := a.position
  setPosition a i := { a with position := i }
  position_set _ _ := rfl

/-- `RootModAssociation`: associates a modified root with one modification
at an explicit `position`. -/
structure RootModAssociation where
  root_id : Option Nat
  modification_id : Nat
  position : Nat
  deriving DecidableEq, Repr

instance : HasPosition RootModAssociation where
  position a := a.position
  setPosition a i := { a with position := i }
  position_set _ _ := rfl

/-- The closed set of `Root` variants, discriminated by the `discriminator`
column (`polymorphic_on`): plain roots, `PrefixedRoot` (identity 1, owning
`prefix_assocs`), `ModifiedRoot` (identity 2, owning `mod_assocs`), and
`PrefixedModifiedRoot` (identity 3, owning both collections). -/
inductive RootVariant where
  | plain
  | prefixed (prefix_assocs : List RootPrefixAssociation)
  | modified (mod_assocs : List RootModAssociation)
  | prefixedModified (prefix_assocs : List RootPrefixAssociation)
      (mod_assocs : List RootModAssociation)
  deriving DecidableEq, Repr

/-- `Root`: id, name, the nullable `basis_id` self-reference, and the
variant payload selected by the discriminator. -/
structure Root where
  id : Nat
  name : String
  basis_id : Option Nat
  variant : RootVariant
  deriving DecidableEq, Repr

/-- The `discriminator` column value of a root, per the declared
`polymorphic_identity` of each subclass (`none` for a plain `Root`). -/
def Root.discriminator (r : Root) : Option Nat :=
  match r.variant with
  | .plain => none
  | .prefixed _ => some 1
  | .modified _ => some 2
  | .prefixedModified _ _ => some 3

/-- `PrefixedModifiedRoot` as a live entity: it declares its own `mod_assocs`
relationship (re-declared in the source despite the diamond inheritance) and
inherits `prefix_assocs`; each instance owns both collections. -/
structure PrefixedModifiedRoot where
  id : Nat
  name : String
  basis_id : Option Nat
  prefix_assocs : List RootPrefixAssociation
  mod_assocs : List RootModAssociation
  deriving DecidableEq, Repr

/-- Mutate the prefix collection of one `PrefixedModifiedRoot`. -/
def PrefixedModifiedRoot.applyPrefixOp (r : PrefixedModifiedRoot)
    (op : OrderOp RootPrefixAssociation) : PrefixedModifiedRoot :=
  { r with prefix_assocs := applyOp r.prefix_assocs op }

/-- Mutate the modification collection of one `PrefixedModifiedRoot`. -/
def PrefixedModifiedRoot.applyModOp (r : PrefixedModifiedRoot)
    (op : OrderOp RootModAssociation) : PrefixedModifiedRoot :=
  { r with mod_assocs := applyOp r.mod_assocs op }

/-- Update the entity stored under id `i`, leaving every other id alone. -/
def updateRootAt (store : Nat → Option PrefixedModifiedRoot) (i : Nat)
    (f : PrefixedModifiedRoot → PrefixedModifiedRoot) :
    Nat → Option PrefixedModifiedRoot :=
  fun n => if n = i then (store n).map f else store n

/-- The two `Prefix` variants, discriminated by the `pos_id` column
(`polymorphic_on`): `VerbPrefix` and `NounPrefix`. -/
inductive PrefixTag where
  | verbPrefix
  | nounPrefix
  deriving DecidableEq, Repr

/-- `Prefix`: id, name, and the variant tag fixed at construction. -/
structure Prefix where
  id : Nat
  name : String
  tag : PrefixTag
  deriving DecidableEq, Repr

/-- The `pos_id` discriminator column of a prefix, per the declared
`polymorphic_identity` of each subclass. -/
def Prefix.pos_id (p : Prefix) : Nat :=
  match p.tag with
  | .verbPrefix => Tag.VERB_PREFIX
  | .nounPrefix => Tag.NOUN_PREFIX

/-- `Stem`: id, name, nullable `gender_id` (a foreign key into the gender
table), the `pos_id` discriminator (a foreign key into the tag table), and
the `dependent` flag. -/
structure Stem where
  id : Nat
  name : String
  gender_id : Option Nat
  pos_id : Option Nat
  dependent : Bool
  deriving DecidableEq, Repr

/-- The `gender` accessor as the source declares it: `gender = relationship(Tag)`.
The stem table's only foreign key into the tag table is `pos_id` (the
`gender_id` column references `gender.id`, a different table), so this
declared relationship joins the stem to the tag table through `pos_id` and
yields a `Tag` row. -/
def Stem.gender (tags : List Tag) (s : Stem) : Option Tag :=
  s.pos_id.bind (fun i => tags.find? (fun t => t.id == i))

/-- The gender accessor as the spec words it, for comparison with
`Stem.gender`: the nullable `gender_id` resolves to an entry of the `Gender`
enumeration. -/
def Stem.genderAsSpecified (genders : List Gender) (s : Stem) : Option Gender :=
  s.gender_id.bind (fun i => genders.find? (fun g => g.id == i))

/-- `ParticipleStem`: a stem that additionally references a root, a mode,
and a voice. -/
structure ParticipleStem where
  id : Nat
  name : String
  gender_id : Option Nat
  dependent : Bool
  root_id : Option Nat
  mode_id : Option Nat
  voice_id : Option Nat
  deriving DecidableEq, Repr

/-- `Participle`: a nominal form; it stores `stem_id`, `gender_id`,
`case_id`, `number_id` and the `compounded` flag, and no root column. -/
structure Participle where
  id : Nat
  name : String
  stem_id : Option Nat
  gender_id : Option Nat
  case_id : Option Nat
  number_id : Option Nat
  compounded : Option Bool
  deriving DecidableEq, Repr

/-- The `stem` relationship of a participle, resolved in the current stem
store. -/
def Participle.stem (stems : Nat → Option ParticipleStem) (p : Participle) :
    Option ParticipleStem :=
  p.stem_id.bind stems

/-- `root = association_proxy('stem', 'root')`: the root of a participle is
computed through its stem on every access and is not stored on the
participle row. -/
def Participle.root (stems : Nat → Option ParticipleStem) (p : Participle) :
    Option Nat :=
  (p.stem stems).bind (fun s => s.root_id)

/-- Reassign the `root_id` of the stem stored under `sid`. -/
def setStemRoot (stems : Nat → Option ParticipleStem) (sid : Nat)
    (r : Option Nat) : Nat → Option ParticipleStem :=
  fun n => if n = sid then (stems n).map (fun s => { s with root_id := r }) else stems n

/-- `Form`: id, name, and the `pos_id` discriminator column
(`polymorphic_on`). -/
structure Form where
  id : Nat
  name : String
  pos_id : Option Nat
  deriving DecidableEq, Repr

/-- `Verb`: a form carrying the six reference columns `root_id` (foreign key
into the root table), `vclass_id` (into vclass), `person_id` (into person),
`number_id` (into number), `mode_id` (into mode) and `voice_id` (into
voice). -/
structure Verb where
  id : Nat
  name : String
  root_id : Option Nat
  vclass_id : Option Nat
  person_id : Option Nat
  number_id : Option Nat
  mode_id : Option Nat
  voice_id : Option Nat
  deriving DecidableEq, Repr

/-- `Paradigm`: associates a root with a verb class and a voice, with the
`default` flag (column default false). -/
structure Paradigm where
  id : Nat
  root_id : Option Nat
  vclass_id : Option Nat
  voice_id : Option Nat
  default : Bool
  deriving DecidableEq, Repr

/-- The loaded table contents the relationship accessors resolve against. -/
structure Db where
  roots : List Root
  vclasses : List VClass
  persons : List Person
  numbers : List Number
  modes : List Mode
  voices : List Voice
  verbs : List Verb
  deriving DecidableEq, Repr

/-- The `root = relationship(Root)` accessor of a verb. -/
def Verb.root (db : Db) (v : Verb) : Option Root :=
  v.root_id.bind (fun i => db.roots.find? (fun r => r.id == i))

/-- Resolution of the verb's `vclass_id` foreign key in its declared target
table (`ForeignKey(VClass.id)`; the source declares the column, with no
relationship accessor beside it). -/
def Verb.vclass (db : Db) (v : Verb) : Option VClass :=
  v.vclass_id.bind (fun i => db.vclasses.find? (fun c => c.id == i))

/-- The `person = relationship(Person)` accessor of a verb. -/
def Verb.person (db : Db) (v : Verb) : Option Person :=
  v.person_id.bind (fun i => db.persons.find? (fun c => c.id == i))

/-- The `number = relationship(Number)` accessor of a verb. -/
def Verb.number (db : Db) (v : Verb) : Option Number :=
  v.number_id.bind (fun i => db.numbers.find? (fun c => c.id == i))

/-- The `mode = relationship(Mode)` accessor of a verb. -/
def Verb.mode (db : Db) (v : Verb) : Option Mode :=
  v.mode_id.bind (fun i => db.modes.find? (fun c => c.id == i))

/-- The `voice = relationship(Voice)` accessor of a verb. -/
def Verb.voice (db : Db) (v : Verb) : Option Voice :=
  v.voice_id.bind (fun i => db.voices.find? (fun c => c.id == i))

/-- Whether a nullable foreign key value occurs among the target table's
ids. -/
def optResolves (i : Option Nat) (ids : List Nat) : Bool :=
  match i with
  | none => true
  | some j => decide (j ∈ ids)

/-- Foreign-key integrity of one verb row against the loaded tables. -/
def Verb.fkOk (db : Db) (v : Verb) : Bool :=
  optResolves v.root_id (db.roots.map Root.id) &&
  optResolves v.vclass_id (db.vclasses.map VClass.id) &&
  optResolves v.person_id (db.persons.map Person.id) &&
  optResolves v.number_id (db.numbers.map Number.id) &&
  optResolves v.mode_id (db.modes.map Mode.id) &&
  optResolves v.voice_id (db.voices.map Voice.id)

/-- Foreign-key integrity of every verb row. -/
def Db.verbFKsOk (db : Db) : Bool :=
  db.verbs.all (Verb.fkOk db)

/-- The `vclass = relationship(VClass)` accessor of a paradigm. -/
def Paradigm.vclass (cs : List VClass) (p : Paradigm) : Option VClass :=
  p.vclass_id.bind (fun i => cs.find? (fun c => c.id == i))

/-- The `voice = relationship(Voice)` accessor of a paradigm. -/
def Paradigm.voice (vs : List Voice) (p : Paradigm) : Option Voice :=
  p.voice_id.bind (fun i => vs.find? (fun c => c.id == i))

/-- The `paradigms = relationship('Paradigm')` collection of a root: the
paradigm rows whose `root_id` points at this root. -/
def Root.paradigms (ps : List Paradigm) (r : Root) : List Paradigm :=
  ps.filter (fun p => p.root_id == some r.id)

/-- `vclasses = association_proxy('paradigms', 'vclass')`: the `vclass`
value of each paradigm of the root, in collection order. -/
def Root.vclasses (cs : List VClass) (ps : List Paradigm) (r : Root) :
    List (Option VClass) :=
  (Root.paradigms ps r).map (Paradigm.vclass cs)

/-- `voices = association_proxy('paradigms', 'voice')`: the `voice` value of
each paradigm of the root, in collection order. -/
def Root.voices (vs : List Voice) (ps : List Paradigm) (r : Root) :
    List (Option Voice) :=
  (Root.paradigms ps r).map (Paradigm.voice vs)

/-- Errors of the ancestry resolution described by the spec. -/
inductive AncestryError where
  | CyclicBasis
  | BasisChainTooLong
  deriving DecidableEq, Repr

/-- Modelled from the spec: the source schema declares the `basis`
self-reference on `Root` but contains no `ultimate_basis` routine, so the
traversal is taken from the spec's contract: follow `basis` until a root
with no basis, keeping a visited set of entity ids; a revisited id yields
`CyclicBasis`, and exceeding the hop budget yields `BasisChainTooLong`. -/
def ultimateBasisAux (basisOf : Nat → Option Nat) :
    Nat → List Nat → Nat → Except AncestryError Nat
  | 0, visited, current =>
    if current ∈ visited then .error .CyclicBasis
    else
      match basisOf current with
      | none => .ok current
      | some _ => .error .BasisChainTooLong
  | fuel + 1, visited, current =>
    if current ∈ visited then .error .CyclicBasis
    else
      match basisOf current with
      | none => .ok current
      | some b => ultimateBasisAux basisOf fuel (current :: visited) b

/-- Modelled from the spec: `ultimate_basis` with the default hop limit of
32. -/
def ultimateBasis (basisOf : Nat → Option Nat) (root : Nat) :
    Except AncestryError Nat :=
  ultimateBasisAux basisOf 32 [] root

/-- The `basis` edge function induced by a loaded root table: the
`basis_id` of the root with the given id. -/
def basisOfRoots (roots : List Root) (i : Nat) : Option Nat :=
  (roots.find? (fun r => r.id == i)).bind Root.basis_id

/-- The number of paradigm rows of root `r` whose `default` flag is set. -/
def defaultCount (ps : List Paradigm) (r : Nat) : Nat :=
  (ps.filter (fun p => p.root_id == some r && p.default)).length

/-- Modelled from the spec: the source schema declares the `default` column
with no uniqueness enforcement and ships no validation routine, so the
spec's `validate` check is taken from its contract: report every root that
has more than one paradigm with `default = true`. -/
def defaultParadigmViolations (ps : List Paradigm) : List Nat :=
  ((ps.filterMap Paradigm.root_id).dedup).filter
    (fun r => decide (2 ≤ defaultCount ps r))

/-- Error of a variant-specific access on an entity of the wrong tag, as the
spec describes it. -/
inductive VariantError where
  | WrongVariant
  deriving DecidableEq, Repr

/-- Modelled from the spec: the source declares the `VerbPrefix` subclass
but no downcast operation, so the accessor is taken from the spec's
contract: downcasting a prefix to its `VerbPrefix` variant succeeds only on
a `VerbPrefix`-tagged entity and fails with `WrongVariant` otherwise. -/
def Prefix.asVerbPrefix (p : Prefix) : Except VariantError Prefix :=
  match p.tag with
  | .verbPrefix => .ok p
  | .nounPrefix => .error .WrongVariant

/-- Modelled from the spec: access to the `prefix_assocs` collection, which
the source declares only on the `PrefixedRoot` branch, fails with
`WrongVariant` on a root of any other tag. -/
def Root.prefixAssocs (r : Root) : Except VariantError (List RootPrefixAssociation) :=
  match r.variant with
  | .prefixed ps => .ok ps
  | .prefixedModified ps _ => .ok ps
  | _ => .error .WrongVariant

/-- Modelled from the spec: access to the `mod_assocs` collection, which the
source declares only on the `ModifiedRoot` branch, fails with `WrongVariant`
on a root of any other tag. -/
def Root.modAssocs (r : Root) : Except VariantError (List RootModAssociation) :=
  match r.variant with
  | .modified ms => .ok ms
  | .prefixedModified _ ms => .ok ms
  | _ => .error .WrongVariant

/-- An attribute update available on a `Prefix` row (its payload `name`). -/
inductive PrefixUpdate where
  | setName (n : String)
  deriving DecidableEq, Repr

/-- Apply a prefix attribute update. -/
def Prefix.applyUpdate (p : Prefix) : PrefixUpdate → Prefix
  | .setName n => { p with name := n }

/-- An attribute update available on a `Root` row: the base columns, or a
structural mutation of an owned ordered collection (which only a variant
owning that collection carries; on any other variant the entity is left
unchanged). -/
inductive RootUpdate where
  | setName (n : String)
  | setBasis (b : Option Nat)
  | prefixListOp (op : OrderOp RootPrefixAssociation)
  | modListOp (op : OrderOp RootModAssociation)
  deriving DecidableEq, Repr

/-- Apply a root attribute update. -/
def Root.applyUpdate (r : Root) : RootUpdate → Root
  | .setName n => { r with name := n }
  | .setBasis b => { r with basis_id := b }
  | .prefixListOp op =>
    { r with variant :=
        match r.variant with
        | .prefixed ps => .prefixed (applyOp ps op)
        | .prefixedModified ps ms => .prefixedModified (applyOp ps op) ms
        | v => v }
  | .modListOp op =>
    { r with variant :=
        match r.variant with
        | .modified ms => .modified (applyOp ms op)
        | .prefixedModified ps ms => .prefixedModified ps (applyOp ms op)
        | v => v }

/-- An attribute update available on a `Stem` row. -/
inductive StemUpdate where
  | setName (n : String)
  | setGender (g : Option Nat)
  | setDependent (d : Bool)
  deriving DecidableEq, Repr

/-- Apply a stem attribute update. -/
def Stem.applyUpdate (s : Stem) : StemUpdate → Stem
  | .setName n => { s with name := n }
  | .setGender g => { s with gender_id := g }
  | .setDependent d => { s with dependent := d }

/-- An attribute update available on a `Form` row. -/
inductive FormUpdate where
  | setName (n : String)
  deriving DecidableEq, Repr

/-- Apply a form attribute update. -/
def Form.applyUpdate (f : Form) : FormUpdate → Form
  | .setName n => { f with name := n }

/-!
Concrete instances used to witness the theorems below.
-/

/-- A concrete `PrefixedModifiedRoot` entity. -/
def pmrA : PrefixedModifiedRoot := ⟨1, "sam-gam", none, [], []⟩

/-- A second, distinct concrete `PrefixedModifiedRoot` entity. -/
def pmrB : PrefixedModifiedRoot := ⟨2, "abhi-kr", none, [], []⟩

/-- A store holding the two concrete entities under their ids. -/
def pmrStore : Nat → Option PrefixedModifiedRoot :=
  fun n => if n = 1 then some pmrA else if n = 2 then some pmrB else none

/-- A basis chain: root 0 derives from 1, 1 derives from 2, 2 is bare. -/
def rootsChainABC : List Root :=
  [⟨0, "sam-upa-gam", some 1, .plain⟩, ⟨1, "upa-gam", some 2, .plain⟩,
   ⟨2, "gam", none, .plain⟩]

/-- The same chain with the extra edge giving root 2 the basis 0 (a cycle). -/
def rootsChainCyclic : List Root :=
  [⟨0, "sam-upa-gam", some 1, .plain⟩, ⟨1, "upa-gam", some 2, .plain⟩,
   ⟨2, "gam", some 0, .plain⟩]

/-- A basis chain longer than the default hop limit of 32. -/
def longBasisChain : Nat → Option Nat :=
  fun n => if n < 40 then some (n + 1) else none

/-- Two distinct paradigm rows for root 7, both with the default flag set. -/
def paradigmsTwoDefaults : List Paradigm :=
  [⟨1, some 7, some 1, some 1, true⟩, ⟨2, some 7, some 4, some 2, true⟩]

/-- A stem store holding one participle stem with root 9 under id 4. -/
def stemStoreC5 : Nat → Option ParticipleStem :=
  fun n => if n = 4 then some ⟨4, "gata", some 1, false, some 9, some 2, some 1⟩
    else none

/-- A participle whose stem is the stem stored under id 4. -/
def participleC5 : Participle := ⟨11, "gatah", some 4, some 1, some 1, some 1, some false⟩

/-- A tag table holding the noun part-of-speech tag. -/
def tagsC6 : List Tag := [⟨2, "noun"⟩]

/-- A gender table holding the masculine gender. -/
def gendersC6 : List Gender := [⟨7, "masculine", "m"⟩]

/-- A stem whose `pos_id` is the noun tag and whose `gender_id` is the
masculine gender. -/
def stemC6 : Stem := ⟨1, "nara", some 7, some 2, false⟩

/-- A concrete `NounPrefix`-tagged entity. -/
def nounPrefixC8 : Prefix := ⟨3, "nan", .nounPrefix⟩

/-- A concrete root for the verb table. -/
def rootC9 : Root := ⟨3, "gam", none, .plain⟩

/-- A concrete verb referencing root 3 and entry 1 of each enumeration. -/
def verbC9 : Verb := ⟨21, "gacchati", some 3, some 1, some 1, some 1, some 1, some 1⟩

/-- A loaded database satisfying foreign-key integrity for `verbC9`. -/
def dbC9 : Db :=
  { roots := [rootC9]
    vclasses := [⟨1, "class 1", "1"⟩]
    persons := [⟨1, "third person", "3"⟩]
    numbers := [⟨1, "singular", "s"⟩]
    modes := [⟨1, "present", "pres"⟩]
    voices := [⟨1, "parasmaipada", "P"⟩]
    verbs := [verbC9] }

/-!
Theorems.
-/

/-- Renumbering preserves the collection's length. -/
theorem length_reorderFrom {α : Type} [HasPosition α] (i : Nat) (xs : List α) :
    (reorderFrom i xs).length = xs.length := by
  induction xs generalizing i with
  | nil => rfl
  | cons a t ih => simp [reorderFrom, ih]

/-- After renumbering from `i`, the positions are `i, i+1, ...` in order. -/
theorem positionsOf_reorderFrom {α : Type} [HasPosition α] (i : Nat) (xs : List α) :
    positionsOf (reorderFrom i xs) = List.range' i xs.length := by
  induction xs generalizing i with
  | nil => rfl
  | cons a t ih =>
    simp [reorderFrom, positionsOf, List.range'_succ, HasPosition.position_set]
    simpa [positionsOf] using ih (i + 1)

/-- After a full renumbering, the positions are exactly `0..count-1`. -/
theorem positionsOf_reorder {α : Type} [HasPosition α] (xs : List α) :
    positionsOf (reorder xs) = List.range xs.length := by
  rw [reorder, positionsOf_reorderFrom, List.range_eq_range']

/-- A full renumbering preserves the collection's length. -/
theorem length_reorder {α : Type} [HasPosition α] (xs : List α) :
    (reorder xs).length = xs.length :=
  length_reorderFrom 0 xs

/-- Each single mutation leaves the positions contiguous from zero. -/
theorem positionsOf_applyOp {α : Type} [HasPosition α] (xs : List α) (op : OrderOp α)
    (h : positionsOf xs = List.range xs.length) :
    positionsOf (applyOp xs op) = List.range (applyOp xs op).length := by
  cases op with
  | append a =>
    have hlen : (olAppend xs a).length = xs.length + 1 := by
      simp [olAppend]
    have hpos : positionsOf (olAppend xs a) = positionsOf xs ++ [xs.length] := by
      simp [olAppend, positionsOf, HasPosition.position_set]
    rw [applyOp, hlen, hpos, h, List.range_succ]
  | insertAt i a =>
    rw [applyOp, olInsertAt, positionsOf_reorder, length_reorder]
  | removeAt i =>
    rw [applyOp, olRemoveAt, positionsOf_reorder, length_reorder]

/-- Any mutation sequence leaves the positions contiguous from zero. -/
theorem positionsOf_applyOps {α : Type} [HasPosition α] (ops : List (OrderOp α))
    (xs : List α) (h : positionsOf xs = List.range xs.length) :
    positionsOf (applyOps xs ops) = List.range (applyOps xs ops).length := by
  induction ops generalizing xs with
  | nil => simpa [applyOps] using h
  | cons op rest ih =>
    simp only [applyOps, List.foldl_cons] at ih ⊢
    exact ih (applyOp xs op) (positionsOf_applyOp xs op h)

/-- C1: for every owner of an ordered association (a PrefixedRoot's prefix
list or a ModifiedRoot's modification list), after any sequence of append,
insert-at and remove operations the owner's association rows carry positions
that are exactly `0..count-1`, in order, with no gaps and no duplicates. -/
theorem claim_C1_position_contiguity :
    (∀ ops : List (OrderOp RootPrefixAssociation),
      positionsOf (applyOps ([] : List RootPrefixAssociation) ops)
        = List.range (applyOps ([] : List RootPrefixAssociation) ops).length) ∧
    (∀ ops : List (OrderOp RootModAssociation),
      positionsOf (applyOps ([] : List RootModAssociation) ops)
        = List.range (applyOps ([] : List RootModAssociation) ops).length) :=
  ⟨fun ops => positionsOf_applyOps ops [] rfl,
   fun ops => positionsOf_applyOps ops [] rfl⟩

/-- C2: a PrefixedModifiedRoot carries its own prefix collection and its own
modification collection; mutating its prefix list leaves its modification
list unchanged and vice versa, and mutating the entity stored under one id
leaves every other stored entity unchanged. -/
theorem claim_C2_diamond_independence :
    (∀ (r : PrefixedModifiedRoot) (op : OrderOp RootPrefixAssociation),
      (r.applyPrefixOp op).mod_assocs = r.mod_assocs) ∧
    (∀ (r : PrefixedModifiedRoot) (op : OrderOp RootModAssociation),
      (r.applyModOp op).prefix_assocs = r.prefix_assocs) ∧
    (∀ (store : Nat → Option PrefixedModifiedRoot) (i j : Nat)
      (f : PrefixedModifiedRoot → PrefixedModifiedRoot),
      j ≠ i → updateRootAt store i f j = store j) := by
  refine ⟨fun r op => rfl, fun r op => rfl, fun store i j f h => ?_⟩
  simp [updateRootAt, h]

/-- Witness for C2 at concrete entities: appending a prefix row to the
entity stored under id 1 leaves the entity stored under id 2 unchanged. -/
theorem claim_C2_witness :
    updateRootAt pmrStore 1
      (fun r => r.applyPrefixOp (.append ⟨some 1, 5, 0⟩)) 2 = pmrStore 2 :=
  claim_C2_diamond_independence.2.2 pmrStore 1 2 _ (by decide)

/-- C3: `ultimate_basis` follows the basis reference until a root with no
basis and returns that root (whatever it returns has no basis); on the chain
0 → 1 → 2 with 2 bare it returns 2; adding the edge giving 2 the basis 0
makes it return `CyclicBasis`; and a chain longer than the default hop limit
of 32 returns `BasisChainTooLong`. -/
theorem claim_C3_ultimate_basis :
    (∀ (basisOf : Nat → Option Nat) (fuel : Nat) (visited : List Nat) (r x : Nat),
      ultimateBasisAux basisOf fuel visited r = .ok x → basisOf x = none) ∧
    ultimateBasis (basisOfRoots rootsChainABC) 0 = .ok 2 ∧
    ultimateBasis (basisOfRoots rootsChainCyclic) 0 = .error .CyclicBasis ∧
    ultimateBasis longBasisChain 0 = .error .BasisChainTooLong := by
  refine ⟨?_, rfl, rfl, rfl⟩
  intro basisOf fuel
  induction fuel with
  | zero =>
    intro visited r x h
    rw [ultimateBasisAux] at h
    split at h
    · simp at h
    · cases hb : basisOf r with
      | none =>
        rw [hb] at h
        simp only [Except.ok.injEq] at h
        rw [← h, hb]
      | some b => rw [hb] at h; simp at h
  | succ f ih =>
    intro visited r x h
    rw [ultimateBasisAux] at h
    split at h
    · simp at h
    · cases hb : basisOf r with
      | none =>
        rw [hb] at h
        simp only [Except.ok.injEq] at h
        rw [← h, hb]
      | some b =>
        rw [hb] at h
        exact ih (r :: visited) b x h

/-- Witness for C3: applying the general conjunct to the concrete chain
shows the returned root 2 has no basis. -/
theorem claim_C3_witness :
    basisOfRoots rootsChainABC 2 = none :=
  claim_C3_ultimate_basis.1 (basisOfRoots rootsChainABC) 32 [] 0 2 rfl

/-- A list holding two distinct elements has length at least two. -/
theorem two_le_length_of_mem_ne {α : Type} {l : List α} {a b : α}
    (ha : a ∈ l) (hb : b ∈ l) (hne : a ≠ b) : 2 ≤ l.length := by
  induction l with
  | nil => cases ha
  | cons x t ih =>
    rcases List.mem_cons.mp ha with rfl | ha'
    · rcases List.mem_cons.mp hb with rfl | hb'
      · exact absurd rfl hne
      · have := List.length_pos_of_mem hb'
        simp only [List.length_cons]
        omega
    · have := List.length_pos_of_mem ha'
      simp only [List.length_cons]
      omega

/-- C4: two distinct paradigm rows of the same root that both carry the
default flag make the validation check report that root as a violation. -/
theorem claim_C4_default_uniqueness_validation :
    ∀ (ps : List Paradigm) (p1 p2 : Paradigm) (r : Nat),
      p1 ∈ ps → p2 ∈ ps → p1.id ≠ p2.id →
      p1.root_id = some r → p2.root_id = some r →
      p1.default = true → p2.default = true →
      r ∈ defaultParadigmViolations ps := by
  intro ps p1 p2 r h1 h2 hne hr1 hr2 hd1 hd2
  have hne' : p1 ≠ p2 := fun h => hne (h ▸ rfl)
  have hf1 : p1 ∈ ps.filter (fun p => p.root_id == some r && p.default) :=
    List.mem_filter.mpr ⟨h1, by simp [hr1, hd1]⟩
  have hf2 : p2 ∈ ps.filter (fun p => p.root_id == some r && p.default) :=
    List.mem_filter.mpr ⟨h2, by simp [hr2, hd2]⟩
  have hcount : 2 ≤ defaultCount ps r :=
    two_le_length_of_mem_ne hf1 hf2 hne'
  rw [defaultParadigmViolations]
  refine List.mem_filter.mpr ⟨?_, by simpa using hcount⟩
  exact List.mem_dedup.mpr (List.mem_filterMap.mpr ⟨p1, h1, hr1⟩)

/-- Witness for C4: the validation check reports root 7, which the two
concrete default-flagged paradigm rows share. -/
theorem claim_C4_witness :
    7 ∈ defaultParadigmViolations paradigmsTwoDefaults :=
  claim_C4_default_uniqueness_validation paradigmsTwoDefaults
    ⟨1, some 7, some 1, some 1, true⟩ ⟨2, some 7, some 4, some 2, true⟩ 7
    (by decide) (by decide) (by decide) rfl rfl rfl rfl

/-- C5: a participle's root is computed through its stem on every access: it
always equals the root currently referenced by that stem, reassigning the
stem's root is immediately reflected, and reassigning any other stem's root
leaves it unchanged. -/
theorem claim_C5_participle_root_projection :
    (∀ (stems : Nat → Option ParticipleStem) (p : Participle),
      Participle.root stems p = (Participle.stem stems p).bind ParticipleStem.root_id) ∧
    (∀ (stems : Nat → Option ParticipleStem) (sid : Nat) (r : Option Nat) (p : Participle),
      p.stem_id = some sid → (stems sid).isSome = true →
      Participle.root (setStemRoot stems sid r) p = r) ∧
    (∀ (stems : Nat → Option ParticipleStem) (sid other : Nat) (r : Option Nat)
      (p : Participle),
      p.stem_id = some sid → other ≠ sid →
      Participle.root (setStemRoot stems other r) p = Participle.root stems p) := by
  refine ⟨fun stems p => rfl, ?_, ?_⟩
  · intro stems sid r p hs hsome
    obtain ⟨s, hval⟩ := Option.isSome_iff_exists.mp hsome
    simp [Participle.root, Participle.stem, setStemRoot, hs, hval]
  · intro stems sid other r p hs hne
    simp [Participle.root, Participle.stem, setStemRoot, hs, Ne.symm hne]

/-- Witness for C5: after reassigning the concrete stem's root to 17, the
participle's root reads 17. -/
theorem claim_C5_witness :
    Participle.root (setStemRoot stemStoreC5 4 (some 17)) participleC5 = some 17 :=
  claim_C5_participle_root_projection.2.1 stemStoreC5 4 (some 17) participleC5
    rfl (by decide)

/-- C6 (code bug): the stem's declared `gender` relationship resolves in the
tag table through `pos_id`, so a stem whose `gender_id` names the masculine
gender (id 7) and whose `pos_id` names the noun tag (id 2) reads the noun
part-of-speech tag as its gender, not an entry of the `Gender` enumeration;
the accessor the spec words would resolve `gender_id` in the gender
table. -/
theorem claim_C6_gender_resolves_in_tag_table :
    Stem.gender tagsC6 stemC6 = some ⟨2, "noun"⟩ ∧
    (Stem.gender tagsC6 stemC6).map Tag.id = stemC6.pos_id ∧
    (Stem.gender tagsC6 stemC6).map Tag.id ≠ stemC6.gender_id ∧
    (Stem.genderAsSpecified gendersC6 stemC6).map Gender.id = stemC6.gender_id :=
  ⟨rfl, rfl, by decide, rfl⟩

/-- C7: the variant discriminator of each base kind is fixed at
construction: no attribute update available on a Prefix, Root, Stem or Form
changes the entity's discriminator. -/
theorem claim_C7_variant_fixed_under_updates :
    (∀ (p : Prefix) (u : PrefixUpdate), (p.applyUpdate u).pos_id = p.pos_id) ∧
    (∀ (r : Root) (u : RootUpdate), (r.applyUpdate u).discriminator = r.discriminator) ∧
    (∀ (s : Stem) (u : StemUpdate), (s.applyUpdate u).pos_id = s.pos_id) ∧
    (∀ (f : Form) (u : FormUpdate), (f.applyUpdate u).pos_id = f.pos_id) := by
  refine ⟨fun p u => ?_, fun r u => ?_, fun s u => ?_, fun f u => ?_⟩
  · cases u with
    | setName n => rfl
  · obtain ⟨id, name, basis, v⟩ := r
    cases u with
    | setName n => rfl
    | setBasis b => rfl
    | prefixListOp op => cases v <;> rfl
    | modListOp op => cases v <;> rfl
  · cases u with
    | setName n => rfl
    | setGender g => rfl
    | setDependent d => rfl
  · cases u with
    | setName n => rfl

/-- C8: a variant-specific access on an entity of the wrong tag fails with
`WrongVariant`: downcasting a NounPrefix-tagged entity to VerbPrefix errors,
a successful downcast only ever returns the entity itself on a matching tag
(never a default), and a plain root refuses both the prefix and the
modification collections. -/
theorem claim_C8_wrong_variant_access :
    (∀ p : Prefix, p.tag = .nounPrefix →
      p.asVerbPrefix = .error .WrongVariant) ∧
    (∀ p q : Prefix, p.asVerbPrefix = .ok q → p.tag = .verbPrefix ∧ q = p) ∧
    (∀ r : Root, r.variant = .plain →
      r.prefixAssocs = .error .WrongVariant ∧ r.modAssocs = .error .WrongVariant) := by
  refine ⟨?_, ?_, ?_⟩
  · intro p h
    simp [Prefix.asVerbPrefix, h]
  · intro p q h
    cases ht : p.tag with
    | verbPrefix =>
      simp only [Prefix.asVerbPrefix, ht, Except.ok.injEq] at h
      exact ⟨rfl, h.symm⟩
    | nounPrefix => simp [Prefix.asVerbPrefix, ht] at h
  · intro r h
    constructor <;> simp [Root.prefixAssocs, Root.modAssocs, h]

/-- Witness for C8: the concrete NounPrefix-tagged entity refuses the
VerbPrefix downcast. -/
theorem claim_C8_witness :
    Prefix.asVerbPrefix nounPrefixC8 = .error .WrongVariant :=
  claim_C8_wrong_variant_access.1 nounPrefixC8 rfl

/-- Resolving an id by `find?` over a table that contains it yields a row of
that table carrying the id. -/
theorem find_by_id {α : Type} (f : α → Nat) (l : List α) (i : Nat)
    (h : i ∈ l.map f) :
    ∃ x, l.find? (fun a => f a == i) = some x ∧ x ∈ l ∧ f x = i := by
  induction l with
  | nil => simp at h
  | cons a t ih =>
    by_cases ha : f a = i
    · exact ⟨a, List.find?_cons_of_pos t (by simp [ha]), List.mem_cons_self a t, ha⟩
    · have h' : i ∈ t.map f := by
        rcases List.mem_map.mp h with ⟨x, hx, hfx⟩
        rcases List.mem_cons.mp hx with rfl | hx'
        · exact absurd hfx ha
        · exact List.mem_map.mpr ⟨x, hx', hfx⟩
      obtain ⟨x, hfind, hmem, hfx⟩ := ih h'
      refine ⟨x, ?_, List.mem_cons_of_mem a hmem, hfx⟩
      rw [List.find?_cons_of_neg t (by simp [ha])]
      exact hfind

/-- C9: a verb carries the six reference columns, and under foreign-key
integrity each of them, when set, resolves to an entity of the named kind:
its root in the root table, its verb class in the vclass table, and its
person, number, mode and voice in the respective enumeration tables. -/
theorem claim_C9_verb_references :
    ∀ (db : Db) (v : Verb), v ∈ db.verbs → Db.verbFKsOk db = true →
      (∀ i, v.root_id = some i →
        ∃ r, Verb.root db v = some r ∧ r ∈ db.roots ∧ r.id = i) ∧
      (∀ i, v.vclass_id = some i →
        ∃ c, Verb.vclass db v = some c ∧ c ∈ db.vclasses ∧ c.id = i) ∧
      (∀ i, v.person_id = some i →
        ∃ c, Verb.person db v = some c ∧ c ∈ db.persons ∧ c.id = i) ∧
      (∀ i, v.number_id = some i →
        ∃ c, Verb.number db v = some c ∧ c ∈ db.numbers ∧ c.id = i) ∧
      (∀ i, v.mode_id = some i →
        ∃ c, Verb.mode db v = some c ∧ c ∈ db.modes ∧ c.id = i) ∧
      (∀ i, v.voice_id = some i →
        ∃ c, Verb.voice db v = some c ∧ c ∈ db.voices ∧ c.id = i) := by
  intro db v hv hok
  have hfk : Verb.fkOk db v = true := List.all_eq_true.mp hok v hv
  rw [Verb.fkOk] at hfk
  simp only [Bool.and_eq_true] at hfk
  refine ⟨fun i hi => ?_, fun i hi => ?_, fun i hi => ?_, fun i hi => ?_,
    fun i hi => ?_, fun i hi => ?_⟩
  · have hm : i ∈ db.roots.map Root.id := by
      have := hfk.1.1.1.1.1
      rw [hi] at this
      exact of_decide_eq_true this
    obtain ⟨x, hfind, hmem, hfx⟩ := find_by_id Root.id db.roots i hm
    exact ⟨x, by rw [Verb.root, hi]; exact hfind, hmem, hfx⟩
  · have hm : i ∈ db.vclasses.map VClass.id := by
      have := hfk.1.1.1.1.2
      rw [hi] at this
      exact of_decide_eq_true this
    obtain ⟨x, hfind, hmem, hfx⟩ := find_by_id VClass.id db.vclasses i hm
    exact ⟨x, by rw [Verb.vclass, hi]; exact hfind, hmem, hfx⟩
  · have hm : i ∈ db.persons.map Person.id := by
      have := hfk.1.1.1.2
      rw [hi] at this
      exact of_decide_eq_true this
    obtain ⟨x, hfind, hmem, hfx⟩ := find_by_id Person.id db.persons i hm
    exact ⟨x, by rw [Verb.person, hi]; exact hfind, hmem, hfx⟩
  · have hm : i ∈ db.numbers.map Number.id := by
      have := hfk.1.1.2
      rw [hi] at this
      exact of_decide_eq_true this
    obtain ⟨x, hfind, hmem, hfx⟩ := find_by_id Number.id db.numbers i hm
    exact ⟨x, by rw [Verb.number, hi]; exact hfind, hmem, hfx⟩
  · have hm : i ∈ db.modes.map Mode.id := by
      have := hfk.1.2
      rw [hi] at this
      exact of_decide_eq_true this
    obtain ⟨x, hfind, hmem, hfx⟩ := find_by_id Mode.id db.modes i hm
    exact ⟨x, by rw [Verb.mode, hi]; exact hfind, hmem, hfx⟩
  · have hm : i ∈ db.voices.map Voice.id := by
      have := hfk.2
      rw [hi] at this
      exact of_decide_eq_true this
    obtain ⟨x, hfind, hmem, hfx⟩ := find_by_id Voice.id db.voices i hm
    exact ⟨x, by rw [Verb.voice, hi]; exact hfind, hmem, hfx⟩

/-- Witness for C9: in the concrete database the concrete verb's root
reference resolves to a row of the root table with id 3. -/
theorem claim_C9_witness :
    ∃ r, Verb.root dbC9 verbC9 = some r ∧ r ∈ dbC9.roots ∧ r.id = 3 :=
  (claim_C9_verb_references dbC9 verbC9 (by decide) (by decide)).1 3 rfl

/-- C10: a root's `vclasses` proxy equals, element for element and in the
same order, the `vclass` values of its paradigms, and its `voices` proxy the
`voice` values; both have the same length as the paradigms collection. -/
theorem claim_C10_root_association_proxies :
    ∀ (cs : List VClass) (vs : List Voice) (ps : List Paradigm) (r : Root),
      (Root.vclasses cs ps r).length = (Root.paradigms ps r).length ∧
      (Root.voices vs ps r).length = (Root.paradigms ps r).length ∧
      (∀ i : Nat, (Root.vclasses cs ps r)[i]? =
        ((Root.paradigms ps r)[i]?).map (Paradigm.vclass cs)) ∧
      (∀ i : Nat, (Root.voices vs ps r)[i]? =
        ((Root.paradigms ps r)[i]?).map (Paradigm.voice vs)) := by
  intro cs vs ps r
  refine ⟨?_, ?_, fun i => ?_, fun i => ?_⟩
  · simp [Root.vclasses]
  · simp [Root.voices]
  · simp [Root.vclasses, List.getElem?_map]
  · simp [Root.voices, List.getElem?_map]

end Sanskrit
